import Mathlib

/-!
# oscprompt demo synthesizer: control bridge, port tree and note stack

A shallow embedding of `src/example.cpp`.

* Messages are kept as a path plus a list of typed arguments; a serialised
  buffer and the message it encodes are the same value here, so that
  `strcmp(buffer, "/x")` reads `buffer.path = "/x"` and
  `rtosc_argument_string(buffer)` reads the tag string of the arguments.
* Global variables of the program are the fields of `World`; every function
  that touches them takes a `World` and returns the next one.
* Floats are never computed with; a float is its bit pattern, or the symbolic
  pitch of a MIDI note.
* The rtosc and liblo libraries are not part of the sources. What the program
  needs from them is modelled from the specification and marked as such.
-/

namespace OscPrompt

/-! ## Messages -/

/-- A `float`: a 32-bit pattern, or the value
`440.0f * powf(2.0f, (note-69.0f)/12.0f)` kept symbolic. -/
inductive F32 where
  | ofBits (bits : Nat)
  | noteFreq (note : Int)
  deriving DecidableEq, Repr

/-- One typed argument of a message (type codes s, i, f, T, F, b). -/
inductive Arg where
  | s (v : String)
  | i (v : Int)
  | f (v : F32)
  | T
  | F
  | b (data : String)
  deriving DecidableEq, Repr

/-- The one-character type code of an argument. -/
def Arg.tag : Arg → Char
  | .s _ => 's'
  | .i _ => 'i'
  | .f _ => 'f'
  | .T => 'T'
  | .F => 'F'
  | .b _ => 'b'

/-- A message: a path and its ordered arguments. -/
structure Msg where
  path : String
  args : List Arg
  deriving DecidableEq, Repr

/-- The type-tag string of a message, `rtosc_argument_string`. -/
def rtosc_argument_string (m : Msg) : String :=
  String.mk (m.args.map Arg.tag)

/-- The string value of argument `idx`, `rtosc_argument(m, idx).s`
(the empty string when that argument is not a string). -/
def rtosc_argument_s (m : Msg) (idx : Nat) : String :=
  match m.args.get? idx with
  | some (.s v) => v
  | _ => ""

/-- The integer value of argument `idx`, `rtosc_argument(m, idx).i`. -/
def rtosc_argument_i (m : Msg) (idx : Nat) : Int :=
  match m.args.get? idx with
  | some (.i v) => v
  | _ => 0

/-- Size of a string on the wire: its bytes and a terminator, padded to 4. -/
def osc_strsize (s : String) : Nat := 4 * (s.length / 4 + 1)

/-- Size of one argument on the wire. -/
def Arg.size : Arg → Nat
  | .s v => osc_strsize v
  | .i _ => 4
  | .f _ => 4
  | .T => 0
  | .F => 0
  | .b d => 4 + 4 * ((d.length + 3) / 4)

/-- Encoded length of a message, `rtosc_message_length`. -/
def rtosc_message_length (m : Msg) : Nat :=
  osc_strsize m.path + 4 * ((m.args.length + 1) / 4 + 1) + (m.args.map Arg.size).sum

/-! ## Bounded byte channel -/

/-- A write request made on a channel. -/
inductive Call where
  | write (m : Msg)
  | raw_write (m : Msg)
  deriving DecidableEq, Repr

/-- Modelled from the spec: `rtosc::ThreadLink` (thread-link.h is not part of
the sources). A channel of fixed capacity holding whole messages in write
order; a write that would exceed the capacity is dropped. `calls` lists every
write request made on the channel, dropped ones included, oldest first. -/
structure ThreadLink where
  capacity : Nat
  buffer_size : Nat
  ring : List Msg
  calls : List Call
  deriving DecidableEq, Repr

/-- The declaration `ThreadLink x(max_message_length, max_messages)`. -/
def ThreadLink.new (max_message_length max_messages : Nat) : ThreadLink :=
  { capacity := max_message_length * max_messages, buffer_size := max_message_length,
    ring := [], calls := [] }

/-- Bytes in flight. -/
def ThreadLink.used (t : ThreadLink) : Nat :=
  (t.ring.map rtosc_message_length).sum

/-- Appends `m` when the capacity allows it. -/
def ThreadLink.push (t : ThreadLink) (m : Msg) : List Msg :=
  if t.used + rtosc_message_length m ≤ t.capacity then t.ring ++ [m] else t.ring

/-- The call `t.write(path, types, args...)`. -/
def ThreadLink.write (t : ThreadLink) (m : Msg) : ThreadLink :=
  { t with ring := t.push m, calls := t.calls ++ [Call.write m] }

/-- The call `t.raw_write(msg)`. -/
def ThreadLink.raw_write (t : ThreadLink) (m : Msg) : ThreadLink :=
  { t with ring := t.push m, calls := t.calls ++ [Call.raw_write m] }

/-- The call `t.hasNext()`. -/
def ThreadLink.hasNext (t : ThreadLink) : Bool := !t.ring.isEmpty

/-- The call `t.read()`: takes the oldest message out of the channel. -/
def ThreadLink.read (t : ThreadLink) : Option Msg × ThreadLink :=
  (t.ring.head?, { t with ring := t.ring.tail })

/-- The call `t.peak()`: the next message, the cursor staying where it is. -/
def ThreadLink.peak (t : ThreadLink) : Option Msg := t.ring.head?

/-! ## Synthesizer state -/

/-- `struct Oscil`. -/
structure Oscil where
  volume : F32
  cents : F32
  shape : Int
  phase : F32
  deriving DecidableEq, Repr

/-- `struct Synth`. -/
structure Synth where
  freq : F32
  enable : Bool
  oscil : Fin 16 → Oscil

/-- `static char notes[16]`: the sixteen declared cells, and `used`, every
index that appeared in a `notes[...]` expression, oldest first. -/
structure Notes where
  cell : List Int
  used : List Nat
  deriving DecidableEq, Repr

/-- A read `notes[i]`. -/
def Notes.load (n : Notes) (i : Nat) : Int × Notes :=
  (n.cell.getD i 0, { n with used := n.used ++ [i] })

/-- A store `notes[i] = v`. A store behind the last cell leaves the declared
cells as they are: what lies behind the array is not modelled. -/
def Notes.store (n : Notes) (i : Nat) (v : Int) : Notes :=
  { cell := n.cell.set i v, used := n.used ++ [i] }

/-- The global variables of the program. `sent` lists the calls of
`lo_send_message`, as target address and message, oldest first. -/
structure World where
  synth : Synth
  notes : Notes
  bToU : ThreadLink
  uToB : ThreadLink
  do_exit : Bool
  midi : List (Int × String)
  last_url : String
  curr_url : String
  logger : Finset String
  sent : List (Option String × Msg)

/-- The state at program start: zero-initialised globals, empty channels. -/
def World.init : World :=
  { synth := { freq := .ofBits 0, enable := false,
               oscil := fun _ => ⟨.ofBits 0, .ofBits 0, 0, .ofBits 0⟩ }
    notes := { cell := List.replicate 16 0, used := [] }
    bToU := ThreadLink.new 1024 1024
    uToB := ThreadLink.new 1024 1024
    do_exit := false
    midi := []
    last_url := ""
    curr_url := ""
    logger := ∅
    sent := [] }

/-- The helper `display(str)`: `bToU.write("/display", "s", str)`. -/
def display (str : String) (w : World) : World :=
  { w with bToU := w.bToU.write ⟨"/display", [.s str]⟩ }

/-! ## Note stack -/

/-- The loop `for(int i=0; i<16; ++i) if(notes[i]==note) return;` with `k`
rounds left; the flag tells whether it returned. -/
def push_note_scan (note : Int) : Nat → Notes → Bool × Notes
  | 0, n => (false, n)
  | k + 1, n =>
    let r := n.load (16 - (k + 1))
    if r.1 = note then (true, r.2) else push_note_scan note k r.2

/-- The loop `for(int i=15;i>=0; --i) notes[i+1] = notes[i];` with `i + 1`
rounds left. -/
def push_note_shift : Nat → Notes → Notes
  | 0, n => n
  | i + 1, n =>
    let r := n.load i
    push_note_shift i (r.2.store (i + 1) r.1)

/-- The function `push_note`. -/
def push_note (w : World) (note : Int) : World :=
  let w1 := { w with synth := { w.synth with freq := .noteFreq note } }
  let r := push_note_scan note 16 w1.notes
  if r.1 then { w1 with notes := r.2 }
  else
    let n2 := (push_note_shift 16 r.2).store 0 note
    { w1 with notes := n2, synth := { w1.synth with enable := true } }

/-- The loop `for(int i=0; i<16; ++i) if(notes[i]==note) note_pos = i;` with
`k` rounds left; `none` stands for `note_pos == -1`. -/
def pop_note_scan (note : Int) : Nat → Option Nat → Notes → Option Nat × Notes
  | 0, pos, n => (pos, n)
  | k + 1, pos, n =>
    let r := n.load (16 - (k + 1))
    pop_note_scan note k (if r.1 = note then some (16 - (k + 1)) else pos) r.2

/-- The loop `for(int i=note_pos; i<15; ++i) notes[i] = notes[i+1];` with `k`
rounds left, the next one at `i = 15 - k`. -/
def pop_note_shift : Nat → Notes → Notes
  | 0, n => n
  | k + 1, n =>
    let r := n.load (15 - (k + 1) + 1)
    pop_note_shift k (r.2.store (15 - (k + 1)) r.1)

/-- The function `pop_note`. -/
def pop_note (w : World) (note : Int) : World :=
  let r := pop_note_scan note 16 none w.notes
  let n1 := match r.1 with
    | some note_pos => (pop_note_shift (15 - note_pos) r.2).store 15 0
    | none => r.2
  let r0 := n1.load 0
  if r0.1 = 0 then
    { w with notes := r0.2, synth := { w.synth with enable := false } }
  else
    { w with notes := r0.2, synth := { w.synth with freq := .noteFreq r0.1 } }

/-! ## Port tree -/

/-- The members of `Oscil` and `Synth` that ports are bound to. -/
inductive Field where
  | cents | volume | shape | freq | enable | oscil
  deriving DecidableEq, Repr

/-- The spelling of a member name, `STRINGIFY(name)`. -/
def Field.str : Field → String
  | .cents => "cents"
  | .volume => "volume"
  | .shape => "shape"
  | .freq => "freq"
  | .enable => "enable"
  | .oscil => "oscil"

/-- The callback of a port: one tag for each function or lambda named in the
top-level table, and one for each port macro. -/
inductive Cb where
  | echo | help | apropos | describe | midi_register | quit | synth
  | rParamF (name : Field)
  | rParamI (name : Field)
  | PARAMT (var : Field)
  | rRecurs (name : Field) (length : Nat)
  deriving DecidableEq, Repr

/-- `rtosc::Port`: a row `{name, metadata, ports, cb}`. -/
inductive Port where
  | mk (name : String) (metadata : String) (ports : Option (List Port)) (cb : Cb)
  deriving Repr

/-- The member `name`. -/
def Port.name : Port → String
  | .mk n _ _ _ => n

/-- The member `metadata`. -/
def Port.metadata : Port → String
  | .mk _ m _ _ => m

/-- The member `ports`: the nested collection, if any. -/
def Port.ports : Port → Option (List Port)
  | .mk _ _ p _ => p

/-- The member `cb`. -/
def Port.cb : Port → Cb
  | .mk _ _ _ c => c

/-- Modelled from the spec: the macro `rDoc` (port-sugar.h is not part of the
sources): free-text documentation inside the metadata. -/
def rDoc (doc : String) : String := ":documentation\x00=" ++ doc ++ "\x00"

/-- Modelled from the spec: the macro `rMap`, a machine-readable hint. -/
def rMap (name value : String) : String := ":" ++ name ++ "\x00=" ++ value ++ "\x00"

/-- Modelled from the spec: the macro `rLinear`, a value range. -/
def rLinear (min max : String) : String :=
  rMap "min" min ++ rMap "max" max ++ rMap "scale" "linear"

/-- Modelled from the spec: the macro `rParamF`, a float parameter bound to
the member `name` of the current object. -/
def rParamF (name : Field) (props doc : String) : Port :=
  .mk (name.str ++ "::f") (props ++ rDoc doc) none (.rParamF name)

/-- Modelled from the spec: the macro `rParamI`, an int parameter. -/
def rParamI (name : Field) (props doc : String) : Port :=
  .mk (name.str ++ "::i") (props ++ rDoc doc) none (.rParamI name)

/-- Modelled from the spec: the macro `PARAMT`, a boolean parameter. -/
def PARAMT (var : Field) (name desc : String) : Port :=
  .mk (name ++ ":T:F") (rDoc desc) none (.PARAMT var)

/-- Modelled from the spec: the macro `rRecurs`, a range placeholder over
`length` homogeneous children that share the collection `sub`. -/
def rRecurs (name : Field) (length : Nat) (doc : String) (sub : List Port) : Port :=
  .mk (name.str ++ "#" ++ toString length ++ "/") (rDoc doc) (some sub) (.rRecurs name length)

/-- The table `Oscil::ports`. -/
def Oscil.ports : List Port :=
  [ rParamF .cents (rLinear "-1200" "1200") "Detune in cents",
    rParamF .volume (rLinear "0.0" "1.0") "Volume on linear scale",
    rParamI .shape (rMap "max" "2") "Shape of Oscillator: \x7bsine, saw, square\x7d" ]

/-- The table `synth_ports`, also reachable as `Synth::ports`. -/
def synth_ports : List Port :=
  [ rParamF .freq (rLinear "0" "20e3") "Base frequency of note",
    PARAMT .enable "enable" "Enable or disable audio output",
    rRecurs .oscil 16 "Oscillator bank element" Oscil.ports ]

/-- The top-level table `ports`. -/
def ports : List Port :=
  [ .mk "echo" (":hidden\x00" ++ rDoc "Echo all parameters back") none .echo,
    .mk "help:" (rDoc "Display help to user") none .help,
    .mk "apropos:s" (rDoc "Find the best match") none .apropos,
    .mk "describe:s" (rDoc "Print out a description of a port") none .describe,
    .mk "midi-register:is" (rDoc "Register a midi port <ctl id, path>") none .midi_register,
    .mk "quit:" (rDoc "Quit the program") none .quit,
    .mk "synth/" (rDoc "Main ports for synthesis") (some synth_ports) .synth ]

/-! ## Path matching -/

/-- The value of the leading decimal digits, `atoi` on an unsigned numeral. -/
def atoi (cs : List Char) : Nat :=
  (cs.takeWhile Char.isDigit).foldl (fun n c => 10 * n + (c.toNat - 48)) 0

/-- The path part of a port name: what stands before the first `:`. -/
def pattern_path (name : String) : List Char :=
  name.toList.takeWhile (fun c => c != ':')

/-- The declared argument types of a port name: the alternatives after the
first `:`, or `none` when the name declares none. -/
def pattern_types (name : String) : Option (List (List Char)) :=
  match name.toList.dropWhile (fun c => c != ':') with
  | [] => none
  | _ :: rest => some (rest.splitOn ':')

/-- Modelled from the spec: the name match of one path segment. A plain name
matches exactly; a range placeholder `base#N` matches `base` followed by a
decimal index below `N`. -/
def match_segment (pat seg : List Char) : Bool :=
  let base := pat.takeWhile (fun c => c != '#')
  match pat.dropWhile (fun c => c != '#') with
  | [] => seg == base
  | _ :: count =>
    let digits := seg.drop base.length
    seg.take base.length == base && !digits.isEmpty && digits.all Char.isDigit
      && decide (atoi digits < atoi count)

/-- Modelled from the spec: `rtosc_match` (rtosc.h is not part of the
sources). A port name ending in `/` matches the head segment of a longer path;
any other name matches a path with no further segment whose argument types are
among the declared ones. -/
def rtosc_match (name : String) (m : Msg) : Bool :=
  let pat := pattern_path name
  let path := m.path.toList
  if pat.getLast? = some '/' then
    path.contains '/' && match_segment pat.dropLast (path.takeWhile (fun c => c != '/'))
  else
    !path.contains '/' && match_segment pat path &&
      match pattern_types name with
      | none => true
      | some alts => alts.contains (m.args.map Arg.tag)

/-- Modelled from the spec: `snip`, the path behind its first `/`. -/
def snip (m : Msg) : Msg :=
  { m with path := String.mk ((m.path.toList.dropWhile (fun c => c != '/')).drop 1) }

/-- The pointer step `msg+1`: the message without its first character. -/
def skip1 (m : Msg) : Msg :=
  { m with path := String.mk (m.path.toList.drop 1) }

/-! ## Dispatch -/

/-- The object `d.obj` points at. -/
inductive Obj where
  | null
  | synth
  | oscil (idx : Nat)
  deriving DecidableEq, Repr

/-- `rtosc::RtData`, as `process` sets it up. -/
structure RtData where
  loc : String
  obj : Obj
  matched : Nat
  deriving DecidableEq, Repr

/-- The method `RtPass::reply(path, args, ...)`. -/
def RtPass.reply (m : Msg) (w : World) : World :=
  let len := if rtosc_message_length m ≤ w.bToU.buffer_size then rtosc_message_length m else 0
  if len ≠ 0 then { w with bToU := w.bToU.raw_write m } else w

/-- Modelled from the spec: `Ports::dispatch` (ports.h is not part of the
sources). Every port of the collection whose name matches is invoked, `run`
giving the behaviour of its callback; a matched leaf counts in `matched` (the
member `matches`), and `loc` holds the path matched so far while the callback
runs. -/
def dispatch (run : Cb → Msg → RtData → World → RtData × World) (ps : List Port)
    (m : Msg) (d : RtData) (w : World) : RtData × World :=
  ps.foldl (fun acc p =>
    if rtosc_match p.name m then
      let d1 : RtData :=
        if p.ports.isNone then { acc.1 with matched := acc.1.matched + 1 } else acc.1
      let here := (if d1.loc = "" then "/" else d1.loc)
        ++ String.mk (m.path.toList.takeWhile (fun c => c != '/'))
        ++ (if p.ports.isNone then "" else "/")
      let r := run p.cb m { d1 with loc := here } acc.2
      ({ r.1 with loc := d1.loc }, r.2)
    else acc) (d, w)

/-- A float member of the object `obj`. -/
def getF (w : World) : Obj → Field → F32
  | .synth, .freq => w.synth.freq
  | .oscil idx, .volume => if h : idx < 16 then (w.synth.oscil ⟨idx, h⟩).volume else .ofBits 0
  | .oscil idx, .cents => if h : idx < 16 then (w.synth.oscil ⟨idx, h⟩).cents else .ofBits 0
  | _, _ => .ofBits 0

/-- The assignment `obj->name = v` for a float member. -/
def setF (w : World) (v : F32) : Obj → Field → World
  | .synth, .freq => { w with synth := { w.synth with freq := v } }
  | .oscil idx, .volume =>
    if h : idx < 16 then
      let o : Oscil := { w.synth.oscil ⟨idx, h⟩ with volume := v }
      { w with synth := { w.synth with oscil := Function.update w.synth.oscil ⟨idx, h⟩ o } }
    else w
  | .oscil idx, .cents =>
    if h : idx < 16 then
      let o : Oscil := { w.synth.oscil ⟨idx, h⟩ with cents := v }
      { w with synth := { w.synth with oscil := Function.update w.synth.oscil ⟨idx, h⟩ o } }
    else w
  | _, _ => w

/-- An int member of the object `obj`. -/
def getI (w : World) : Obj → Field → Int
  | .oscil idx, .shape => if h : idx < 16 then (w.synth.oscil ⟨idx, h⟩).shape else 0
  | _, _ => 0

/-- The assignment `obj->name = v` for an int member. -/
def setI (w : World) (v : Int) : Obj → Field → World
  | .oscil idx, .shape =>
    if h : idx < 16 then
      let o : Oscil := { w.synth.oscil ⟨idx, h⟩ with shape := v }
      { w with synth := { w.synth with oscil := Function.update w.synth.oscil ⟨idx, h⟩ o } }
    else w
  | _, _ => w

/-- Modelled from the spec: the leaf accessors made by `rParamF`, `rParamI`
and `PARAMT`: without an argument the value is replied at `d.loc`, with one it
is stored in the member of the current object. -/
def param_cb (cb : Cb) (m : Msg) (d : RtData) (w : World) : RtData × World :=
  match cb, m.args with
  | .rParamF name, [] => (d, RtPass.reply ⟨d.loc, [.f (getF w d.obj name)]⟩ w)
  | .rParamF name, .f v :: _ => (d, setF w v d.obj name)
  | .rParamI name, [] => (d, RtPass.reply ⟨d.loc, [.i (getI w d.obj name)]⟩ w)
  | .rParamI name, .i v :: _ => (d, setI w v d.obj name)
  | .PARAMT .enable, [] =>
    (d, RtPass.reply ⟨d.loc, [if w.synth.enable then .T else .F]⟩ w)
  | .PARAMT .enable, .T :: _ => (d, { w with synth := { w.synth with enable := true } })
  | .PARAMT .enable, .F :: _ => (d, { w with synth := { w.synth with enable := false } })
  | _, _ => (d, w)

/-- The callbacks of `synth_ports`. Modelled from the spec: `rRecurs` makes the
indexed element the current object and dispatches what is left of the path
into the collection of the element type. -/
def synth_cb (cb : Cb) (m : Msg) (d : RtData) (w : World) : RtData × World :=
  match cb with
  | .rRecurs .oscil _ =>
    let idx := atoi (m.path.toList.dropWhile (fun c => !c.isDigit))
    dispatch param_cb Oscil.ports (snip m) { d with obj := .oscil idx } w
  | cb => param_cb cb m d w

/-! ## Lookup by name -/

/-- The C function `strstr(haystack, needle)`: the offset of the first
occurrence of `needle`, `none` for the null pointer. -/
def strstr : List Char → List Char → Option Nat
  | [], needle => if needle.isEmpty then some 0 else none
  | c :: cs, needle =>
    if needle.isPrefixOf (c :: cs) then some 0 else (strstr cs needle).map (fun k => k + 1)

mutual
/-- Modelled from the spec: the search of `Ports::apropos` below one port: the
port itself if its name contains the fragment, else the first such port of its
nested collection. -/
def Port.apropos (frag : String) : Port → Option Port
  | .mk name metadata sub cb =>
    if (strstr name.toList frag.toList).isSome then some (.mk name metadata sub cb)
    else match sub with
      | none => none
      | some ps => Ports.apropos frag ps
/-- Modelled from the spec: `Ports::apropos` (ports.h is not part of the
sources): the first port anywhere in the tree whose name contains the
fragment, depth first in declaration order. -/
def Ports.apropos (frag : String) : List Port → Option Port
  | [] => none
  | p :: ps =>
    match Port.apropos frag p with
    | some r => some r
    | none => Ports.apropos frag ps
end

/-! ## Callbacks of the top-level table -/

/-- The function `echo`. -/
def echo (w : World) : World :=
  match w.uToB.peak with
  | some m => { w with bToU := w.bToU.raw_write m }
  | none => w

/-- The text shown by `help`. -/
def help_text : String :=
  "Welcome to the OSC prompt, where simple OSC messages control "
  ++ "parameters in a less than simple manner.\n"
  ++ "\n"
  ++ "This application is a simple additive synthesis engine. "
  ++ "The synthesizer ports are:\n"
  ++ "/synth/enable, /synth/oscil#/cents, /synth/oscil#/volume, /synth/oscil#/shape, "
  ++ "/synth/freq\n"
  ++ "For some audio enable the output, make one volume non-zero, and set a frequency\n\n"
  ++ "/synth/enable T\n"
  ++ "/synth/oscil0/volume 0.2\n"
  ++ "/synth/freq 440.0\n\n"
  ++ "Good Luck..."

/-- The function `help`. -/
def help (w : World) : World := display help_text w

/-- The step `if(*s=='/') ++s;`. -/
def skip_slash (s : String) : String :=
  match s.toList with
  | '/' :: rest => String.mk rest
  | _ => s

/-- The function `apropos`. -/
def apropos (m : Msg) (w : World) : World :=
  let s := skip_slash (rtosc_argument_s m 0)
  match Ports.apropos s ports with
  | some p => display p.name w
  | none => display "unknown path..." w

/-- The function `describe`. -/
def describe (m : Msg) (w : World) : World :=
  let ss := rtosc_argument_s m 0
  let s := skip_slash ss
  match Ports.apropos s ports with
  | some p => display p.metadata w
  | none =>
    let reply : Msg := ⟨"/display", [.s "could not find path...<", .s ss, .s ">"]⟩
    { w with bToU := w.bToU.write reply }

/-- The function `midi_register`. Modelled from the spec: `MidiTable::addElm`
records the pair of controller and path. -/
def midi_register (m : Msg) (w : World) : World :=
  { w with midi := w.midi ++ [(rtosc_argument_i m 0, rtosc_argument_s m 1)] }

/-- The callbacks of the top-level table `ports`. -/
def ports_cb (cb : Cb) (m : Msg) (d : RtData) (w : World) : RtData × World :=
  match cb with
  | .echo => (d, echo w)
  | .help => (d, help w)
  | .apropos => (d, apropos m w)
  | .describe => (d, describe m w)
  | .midi_register => (d, midi_register m w)
  | .quit => (d, { w with do_exit := true, bToU := w.bToU.write ⟨"/disconnect", []⟩ })
  | .synth => dispatch synth_cb synth_ports (snip m) { d with obj := .synth } w
  | _ => (d, w)

/-- One round of the loop of `process` that handles user events:
`d.matches = 0; ports.dispatch(msg+1, d);` for the message just read. -/
def process_msg (msg : Msg) (d : RtData) (w : World) : RtData × World :=
  dispatch ports_cb ports (skip1 msg) { d with matched := 0 } w

/-- The loop `while(uToB.hasNext())` of `process`, run over the messages
waiting in the channel, each taken out by `uToB.read()` before its dispatch. -/
def process_loop : List Msg → RtData → World → RtData × World
  | [], d, w => (d, w)
  | msg :: rest, d, w =>
    let r := process_msg msg d { w with uToB := { w.uToB with ring := rest } }
    process_loop rest r.1 r.2

/-- The part of `process` that handles user events. -/
def process (w : World) : World :=
  (process_loop w.uToB.ring { loc := "", obj := .null, matched := 0 } w).2

/-! ## Control bridge -/

/-- Modelled from the spec: `lo_address_new_from_url` (liblo is not part of
the sources). Every URL of the program comes from `lo_address_get_url` or is
the empty string a global starts with; the empty string gives the null
address. -/
def lo_address_new_from_url (url : String) : Option String :=
  if url = "" then none else some url

/-- The call `lo_send_message(addr, path, msg)`, recorded in `sent`. -/
def lo_send_message (addr : Option String) (m : Msg) (w : World) : World :=
  { w with sent := w.sent ++ [(addr, m)] }

/-- The loop `for(const Port &p:*ports)` of `path_search`: `args` holds the
arguments filled so far (`types` is their tag string). The collections of this
program have at most seven ports, within the room of `types[65]` and
`args[64]`. -/
def path_search_loop (needle : String) : List Port → List Arg → List Arg
  | [], args => args
  | p :: ps, args =>
    if strstr p.name.toList needle.toList ≠ some 0 then path_search_loop needle ps args
    else path_search_loop needle ps (args ++ [.s p.name, .b p.metadata])

/-- The collection `path_search` walks: the local `ports` after the lookup. -/
def path_search_ports (m : Msg) : Option (List Port) :=
  let str := rtosc_argument_s m 0
  if str = "" then some OscPrompt.ports
  else
    match Ports.apropos str OscPrompt.ports with
    | some port => port.ports
    | none => none

/-- The message `path_search` builds with `rtosc_amessage`. -/
def path_search_reply (m : Msg) : Msg :=
  let needle := rtosc_argument_s m 1
  match path_search_ports m with
  | some ps => ⟨"/paths", path_search_loop needle ps []⟩
  | none => ⟨"/paths", []⟩

/-- The function `path_search`. -/
def path_search (m : Msg) (w : World) : World :=
  let reply := path_search_reply m
  let length := if rtosc_message_length reply ≤ 1024 then rtosc_message_length reply else 0
  if length ≠ 0 then
    match lo_address_new_from_url w.last_url with
    | some addr => lo_send_message (some addr) reply w
    | none => w
  else w

/-- A message as liblo hands it to a method handler: the URL of its source
(`lo_address_get_url(lo_message_get_source(msg))`, `none` for no source) and
its arguments. -/
structure LoMessage where
  source : Option String
  args : List Arg
  deriving DecidableEq, Repr

/-- The call `lo_message_serialise(msg, path, buffer, &size)`; the 2048 bytes
of `buffer` are taken to hold the message. -/
def lo_message_serialise (msg : LoMessage) (path : String) : Msg :=
  ⟨path, msg.args⟩

/-- The first block of `handler_function`, `if(addr) ...`: a sender whose URL
differs from `last_url` is announced to the audio thread and remembered. -/
def handler_source (addr : Option String) (w : World) : World :=
  match addr with
  | some tmp =>
    if tmp ≠ w.last_url then
      { w with uToB := w.uToB.write ⟨"/echo", [.s "OSC_URL", .s tmp]⟩, last_url := tmp }
    else w
  | none => w

/-- The function `handler_function`. -/
def handler_function (path : String) (msg : LoMessage) (w : World) : World :=
  let addr := msg.source
  let w1 := handler_source addr w
  let buffer := lo_message_serialise msg path
  if buffer.path = "/logging-start" then
    match addr with
    | some url => { w1 with logger := insert url w1.logger }
    | none => w1
  else if buffer.path = "/logging-stop" then
    match addr with
    | some url => { w1 with logger := w1.logger.erase url }
    | none => w1
  else if buffer.path = "/path-search" ∧ rtosc_argument_string buffer = "ss" then
    path_search buffer w1
  else
    { w1 with uToB := w1.uToB.raw_write buffer }

/-- The body of the loop `while(bToU.hasNext())` of `main` for the message
`rtmsg` just read; `for(std::string str : logger)` walks the set in ascending
order. -/
def main_step (rtmsg : Msg) (w : World) : World :=
  if rtmsg.path = "/echo" ∧ rtosc_argument_string rtmsg = "ss"
      ∧ rtosc_argument_s rtmsg 0 = "OSC_URL" then
    { w with curr_url := rtosc_argument_s rtmsg 1 }
  else
    let w1 := (w.logger.sort (fun a b => a ≤ b)).foldl
      (fun acc str => lo_send_message (lo_address_new_from_url str) rtmsg acc) w
    if w.curr_url ∉ w.logger then
      lo_send_message (lo_address_new_from_url w.curr_url) rtmsg w1
    else w1

/-- The loop `while(bToU.hasNext())` of `main`, run over the messages waiting
in the channel. -/
def main_drain : List Msg → World → World
  | [], w => w
  | rtmsg :: rest, w =>
    main_drain rest (main_step rtmsg { w with bToU := { w.bToU with ring := rest } })

/-- One call on the note stack. -/
inductive NoteOp where
  | push (note : Int)
  | pop (note : Int)
  deriving DecidableEq, Repr

/-- The call an operation stands for. -/
def NoteOp.run (w : World) : NoteOp → World
  | .push note => push_note w note
  | .pop note => pop_note w note

/-- A finite sequence of calls, first to last. -/
def run_ops (w : World) (ops : List NoteOp) : World :=
  ops.foldl NoteOp.run w

/-- What the note stack keeps true: sixteen cells, and no non-zero value in
two of them. -/
def NotesInv (cell : List Int) : Prop :=
  cell.length = 16 ∧ cell.Pairwise (fun a b => a ≠ 0 → a ≠ b)


/-! ## Observations used in the statements -/

/-- The messages handed to `raw_write` on a channel between two of its
states, oldest first. -/
def raw_written (before after : ThreadLink) : List Msg :=
  (after.calls.drop before.calls.length).filterMap
    (fun c => match c with
      | .raw_write m => some m
      | .write _ => none)

/-- The calls of `lo_send_message` made between two states, oldest first. -/
def sent_since (before after : World) : List (Option String × Msg) :=
  after.sent.drop before.sent.length

/-- The scenario of the specification: two peers subscribe with
`/logging-start`, and a third one is learned as the controller. -/
def scenario_world : World :=
  main_step ⟨"/echo", [.s "OSC_URL", .s "osc.udp://10.0.0.3:9000/"]⟩
    (handler_function "/logging-start" ⟨some "osc.udp://10.0.0.2:9000/", []⟩
      (handler_function "/logging-start" ⟨some "osc.udp://10.0.0.1:9000/", []⟩ World.init))

/-- A reply of the audio thread to a change of a parameter (440.0f). -/
def scenario_reply : Msg := ⟨"/synth/freq", [.f (.ofBits 0x43DC0000)]⟩

/-- The arguments of a message taken two by two. -/
def arg_pairs : List Arg → List (Arg × Arg)
  | a :: b :: rest => (a, b) :: arg_pairs rest
  | _ => []

/-- The pair of arguments `path_search` writes for a port. -/
def port_row (p : Port) : List Arg := [.s p.name, .b p.metadata]

mutual
/-- The full path of the port `Port.apropos` finds below one port, the names of
the ports above it being joined in `pre`. -/
def Port.apropos_path (frag : String) (pre : String) : Port → Option String
  | .mk name _ sub _ =>
    if (strstr name.toList frag.toList).isSome then some (pre ++ String.mk (pattern_path name))
    else match sub with
      | none => none
      | some ps => Ports.apropos_path frag (pre ++ String.mk (pattern_path name)) ps
/-- The full path of the port `Ports.apropos` finds: the names from the root
of the tree down to the port, joined. -/
def Ports.apropos_path (frag : String) (pre : String) : List Port → Option String
  | [] => none
  | p :: ps =>
    match Port.apropos_path frag pre p with
    | some r => some r
    | none => Ports.apropos_path frag pre ps
end

/-! # Theorems -/

/-! ## Control bridge: statements and proofs -/

theorem path_search_uToB (m : Msg) (w : World) : (path_search m w).uToB = w.uToB := by
  unfold path_search
  dsimp only
  split_ifs <;> first | rfl | (cases lo_address_new_from_url w.last_url <;> rfl)

theorem path_search_logger (m : Msg) (w : World) : (path_search m w).logger = w.logger := by
  unfold path_search
  dsimp only
  split_ifs <;> first | rfl | (cases lo_address_new_from_url w.last_url <;> rfl)

theorem handler_source_logger (addr : Option String) (w : World) :
    (handler_source addr w).logger = w.logger := by
  unfold handler_source
  cases addr with
  | none => rfl
  | some tmp => dsimp only; split <;> rfl

theorem handler_function_uToB (path : String) (msg : LoMessage) (w : World) :
    (handler_function path msg w).uToB =
      if path = "/logging-start" ∨ path = "/logging-stop"
          ∨ (path = "/path-search" ∧ rtosc_argument_string (lo_message_serialise msg path) = "ss")
      then (handler_source msg.source w).uToB
      else (handler_source msg.source w).uToB.raw_write (lo_message_serialise msg path) := by
  unfold handler_function
  simp only [lo_message_serialise]
  by_cases h1 : path = "/logging-start"
  · rw [if_pos h1, if_pos (Or.inl h1)]
    cases msg.source <;> rfl
  · by_cases h2 : path = "/logging-stop"
    · rw [if_neg h1, if_pos h2, if_pos (Or.inr (Or.inl h2))]
      cases msg.source <;> rfl
    · by_cases h3 : path = "/path-search" ∧ rtosc_argument_string ⟨path, msg.args⟩ = "ss"
      · rw [if_neg h1, if_neg h2, if_pos h3, if_pos (Or.inr (Or.inr h3)), path_search_uToB]
      · rw [if_neg h1, if_neg h2, if_neg h3, if_neg (by tauto)]

theorem raw_written_source (addr : Option String) (w : World) :
    raw_written w.uToB (handler_source addr w).uToB = [] := by
  unfold handler_source raw_written
  cases addr with
  | none => simp
  | some tmp => by_cases h : tmp = w.last_url <;> simp [h, ThreadLink.write]

theorem raw_written_source_raw (addr : Option String) (w : World) (m : Msg) :
    raw_written w.uToB ((handler_source addr w).uToB.raw_write m) = [m] := by
  unfold handler_source raw_written
  cases addr with
  | none => simp [ThreadLink.raw_write]
  | some tmp => by_cases h : tmp = w.last_url <;> simp [h, ThreadLink.write, ThreadLink.raw_write]

/-- C1, as the code has it: the serialised message is handed to
`uToB.raw_write`, once and unchanged, unless its path is `/logging-start` or
`/logging-stop`, or it is `/path-search` with the type tags `ss`; in those
cases nothing is handed to `raw_write`. -/
theorem handler_function_forwards (path : String) (msg : LoMessage) (w : World) :
    raw_written w.uToB (handler_function path msg w).uToB =
      if path = "/logging-start" ∨ path = "/logging-stop"
          ∨ (path = "/path-search" ∧ rtosc_argument_string (lo_message_serialise msg path) = "ss")
      then []
      else [lo_message_serialise msg path] := by
  rw [handler_function_uToB]
  split
  · exact raw_written_source msg.source w
  · exact raw_written_source_raw msg.source w _

/-- C1 as stated fails: a `/path-search` message whose arguments are not two
strings has a reserved path and is still handed to `uToB.raw_write`. -/
theorem handler_function_forwards_path_search_int :
    lo_message_serialise ⟨none, [.i 1]⟩ "/path-search"
      ∈ raw_written World.init.uToB
          (handler_function "/path-search" ⟨none, [.i 1]⟩ World.init).uToB := by
  decide

/-- C7, as the code has it: for `/logging-start`, `/logging-stop` and
`/path-search` with the type tags `ss`, the channel `uToB` is left as it was
when the sender has no address or the address already in `last_url`; for any
other sender the one request made on it is the write of the notification
`/echo "OSC_URL" <address>`, and nothing is handed to `raw_write`. -/
theorem handler_function_reserved_uToB (path : String) (msg : LoMessage) (w : World)
    (h : path = "/logging-start" ∨ path = "/logging-stop"
      ∨ (path = "/path-search" ∧ rtosc_argument_string (lo_message_serialise msg path) = "ss")) :
    ((msg.source = none ∨ msg.source = some w.last_url) →
      (handler_function path msg w).uToB = w.uToB) ∧
    (∀ tmp, msg.source = some tmp → tmp ≠ w.last_url →
      (handler_function path msg w).uToB
        = w.uToB.write ⟨"/echo", [.s "OSC_URL", .s tmp]⟩) ∧
    raw_written w.uToB (handler_function path msg w).uToB = [] := by
  rw [handler_function_uToB, if_pos h]
  refine ⟨?_, ?_, raw_written_source msg.source w⟩
  · rintro (hs | hs) <;> rw [hs] <;> simp [handler_source]
  · intro tmp hs hne
    rw [hs]
    simp [handler_source, hne]

/-- C7, an instance: `/logging-start` from a peer not seen before. -/
theorem handler_function_reserved_uToB_witness :
    ("/logging-start" = "/logging-start" ∨ "/logging-start" = "/logging-stop"
      ∨ ("/logging-start" = "/path-search"
        ∧ rtosc_argument_string
            (lo_message_serialise ⟨some "osc.udp://127.0.0.1:7777/", []⟩ "/logging-start") = "ss")) ∧
    (((LoMessage.mk (some "osc.udp://127.0.0.1:7777/") []).source = none
        ∨ (LoMessage.mk (some "osc.udp://127.0.0.1:7777/") []).source = some World.init.last_url) →
      (handler_function "/logging-start" ⟨some "osc.udp://127.0.0.1:7777/", []⟩ World.init).uToB
        = World.init.uToB) ∧
    (∀ tmp, (LoMessage.mk (some "osc.udp://127.0.0.1:7777/") []).source = some tmp →
      tmp ≠ World.init.last_url →
      (handler_function "/logging-start" ⟨some "osc.udp://127.0.0.1:7777/", []⟩ World.init).uToB
        = World.init.uToB.write ⟨"/echo", [.s "OSC_URL", .s tmp]⟩) ∧
    raw_written World.init.uToB
      (handler_function "/logging-start" ⟨some "osc.udp://127.0.0.1:7777/", []⟩ World.init).uToB
      = [] :=
  ⟨Or.inl rfl,
    handler_function_reserved_uToB "/logging-start" ⟨some "osc.udp://127.0.0.1:7777/", []⟩
      World.init (Or.inl rfl)⟩

/-- C7 as stated fails: `/logging-start` from a peer whose address is not the
one in `last_url` puts the `/echo` notification into `uToB`, and a
`/path-search` message with other type tags than `ss` is put into `uToB`
itself. -/
theorem handler_function_reserved_writes_uToB :
    (handler_function "/logging-start" ⟨some "osc.udp://127.0.0.1:7777/", []⟩ World.init).uToB.ring
      = [⟨"/echo", [.s "OSC_URL", .s "osc.udp://127.0.0.1:7777/"]⟩]
    ∧ World.init.uToB.ring = []
    ∧ (handler_function "/path-search" ⟨none, [.i 1]⟩ World.init).uToB.ring
      = [⟨"/path-search", [.i 1]⟩] := by
  decide

/-- C6: for a message from a peer with the known address `A`, `A` is in the
subscriber set after `/logging-start`, not in it after `/logging-stop`, the
set is the same after any other path, and in every case the membership of
every other address is the same as before. -/
theorem handler_function_subscribers (path : String) (A : String) (args : List Arg)
    (w : World) :
    (path = "/logging-start" → A ∈ (handler_function path ⟨some A, args⟩ w).logger) ∧
    (path = "/logging-stop" → A ∉ (handler_function path ⟨some A, args⟩ w).logger) ∧
    (path ≠ "/logging-start" → path ≠ "/logging-stop" →
      (handler_function path ⟨some A, args⟩ w).logger = w.logger) ∧
    ∀ B, B ≠ A →
      (B ∈ (handler_function path ⟨some A, args⟩ w).logger ↔ B ∈ w.logger) := by
  have hlog : (handler_function path ⟨some A, args⟩ w).logger =
      if path = "/logging-start" then insert A w.logger
      else if path = "/logging-stop" then w.logger.erase A
      else w.logger := by
    unfold handler_function
    simp only [lo_message_serialise]
    by_cases h1 : path = "/logging-start"
    · rw [if_pos h1, if_pos h1]
      simp only [handler_source_logger]
    · by_cases h2 : path = "/logging-stop"
      · rw [if_neg h1, if_pos h2, if_neg h1, if_pos h2]
        simp only [handler_source_logger]
      · rw [if_neg h1, if_neg h2, if_neg h1, if_neg h2]
        split
        · rw [path_search_logger, handler_source_logger]
        · exact handler_source_logger _ _
  rw [hlog]
  refine ⟨?_, ?_, ?_, ?_⟩
  · intro h; rw [if_pos h]; exact Finset.mem_insert_self _ _
  · intro h
    have h1 : path ≠ "/logging-start" := by rw [h]; decide
    rw [if_neg h1, if_pos h]
    exact Finset.not_mem_erase _ _
  · intro h1 h2; rw [if_neg h1, if_neg h2]
  · intro B hB
    split
    · rw [Finset.mem_insert]; exact ⟨fun h => h.resolve_left hB, Or.inr⟩
    · split
      · rw [Finset.mem_erase]; exact ⟨fun h => h.2, fun h => ⟨hB, h⟩⟩
      · exact Iff.rfl


theorem lo_address_new_from_url_inj (a b : String)
    (h : lo_address_new_from_url a = lo_address_new_from_url b) : a = b := by
  unfold lo_address_new_from_url at h
  by_cases ha : a = "" <;> by_cases hb : b = "" <;> simp [ha, hb] at h
  · rw [ha, hb]
  · exact h

theorem foldl_lo_send_sent (M : Msg) (l : List String) (w : World) :
    (l.foldl (fun acc str => lo_send_message (lo_address_new_from_url str) M acc) w).sent
      = w.sent ++ l.map (fun str => (lo_address_new_from_url str, M)) := by
  induction l generalizing w with
  | nil => simp
  | cons a l ih => rw [List.foldl_cons, ih]; simp [lo_send_message]

/-- The calls of `lo_send_message` one round of the loop makes for a message
that is not the address notification. -/
theorem main_step_sent (M : Msg) (w : World)
    (h : ¬ (M.path = "/echo" ∧ rtosc_argument_string M = "ss"
      ∧ rtosc_argument_s M 0 = "OSC_URL")) :
    sent_since w (main_step M w)
      = (w.logger.sort (fun a b => a ≤ b)).map (fun str => (lo_address_new_from_url str, M))
        ++ (if w.curr_url ∉ w.logger then [(lo_address_new_from_url w.curr_url, M)] else []) := by
  unfold main_step sent_since
  rw [if_neg h]
  dsimp only
  split
  · show List.drop _ ((List.foldl _ w _).sent ++ [_]) = _
    rw [foldl_lo_send_sent, List.append_assoc, List.drop_left]
  · rw [foldl_lo_send_sent, List.drop_left, List.append_nil]

theorem count_sorted (L : Finset String) (M : Msg) (a : String) :
    (((L.sort (fun a b => a ≤ b)).map (fun str => (lo_address_new_from_url str, M))).filter
      (fun e => e.1 = lo_address_new_from_url a)).length = if a ∈ L then 1 else 0 := by
  have hinj : ∀ str : String, (lo_address_new_from_url str = lo_address_new_from_url a) ↔ str = a :=
    fun str => ⟨lo_address_new_from_url_inj str a, fun e => by rw [e]⟩
  rw [List.filter_map, List.length_map]
  have hf : (fun e : Option String × Msg => decide (e.1 = lo_address_new_from_url a))
      ∘ (fun str => (lo_address_new_from_url str, M)) = fun str => decide (str = a) := by
    funext str
    exact decide_eq_decide.mpr (hinj str)
  rw [hf, ← List.countP_eq_length_filter]
  have := List.count_eq_of_nodup (Finset.sort_nodup (fun a b : String => a ≤ b) L) (a := a)
  rw [List.count] at this
  have hb : (fun str : String => decide (str = a)) = (fun x => x == a) := by
    funext str; rfl
  rw [hb, this]
  simp [Finset.mem_sort]

/-- C2: a message `M` taken from `bToU` that is not the notification `/echo`
`"ss"` `"OSC_URL"` is sent, as `M` itself, once to every address of the
subscriber set and once more to the cached controller address exactly when
that address is no subscriber; no address receives it twice. -/
theorem main_step_sends_once (M : Msg) (w : World)
    (h : ¬ (M.path = "/echo" ∧ rtosc_argument_string M = "ss"
      ∧ rtosc_argument_s M 0 = "OSC_URL")) :
    (∀ e ∈ sent_since w (main_step M w), e.2 = M) ∧
    (sent_since w (main_step M w)).length
      = w.logger.card + (if w.curr_url ∈ w.logger then 0 else 1) ∧
    ∀ a : String,
      ((sent_since w (main_step M w)).filter
          (fun e => e.1 = lo_address_new_from_url a)).length
        = if a ∈ w.logger ∨ a = w.curr_url then 1 else 0 := by
  rw [main_step_sent M w h]
  refine ⟨?_, ?_, ?_⟩
  · intro e he
    rw [List.mem_append] at he
    rcases he with he | he
    · rw [List.mem_map] at he
      obtain ⟨str, _, rfl⟩ := he
      rfl
    · split at he
      · rw [List.mem_singleton] at he; rw [he]
      · exact absurd he (List.not_mem_nil _)
  · rw [List.length_append, List.length_map, Finset.length_sort]
    by_cases hc : w.curr_url ∈ w.logger <;> simp [hc]
  · intro a
    rw [List.filter_append, List.length_append, count_sorted]
    by_cases hc : w.curr_url ∈ w.logger
    · have hnn : ¬ (w.curr_url ∉ w.logger) := fun k => k hc
      rw [if_neg hnn]
      by_cases ha : a ∈ w.logger
      · simp [ha]
      · have : a ≠ w.curr_url := fun e => ha (e ▸ hc)
        simp [ha, this]
    · rw [if_pos hc]
      by_cases ha : a ∈ w.logger
      · have hne : w.curr_url ≠ a := fun e => hc (e ▸ ha)
        have : ¬ lo_address_new_from_url w.curr_url = lo_address_new_from_url a :=
          fun e => hne (lo_address_new_from_url_inj _ _ e)
        simp [ha, List.filter_cons, this]
      · by_cases hac : a = w.curr_url
        · subst hac
          simp [hc, List.filter_cons]
        · have : ¬ lo_address_new_from_url w.curr_url = lo_address_new_from_url a :=
            fun e => hac (lo_address_new_from_url_inj _ _ e).symm
          simp [ha, hac, List.filter_cons, this]

/-- C2, an instance: the scenario of two subscribers and a third peer as the
controller, for a reply to a change of `/synth/freq`. -/
theorem main_step_sends_once_witness :
    ¬ (scenario_reply.path = "/echo" ∧ rtosc_argument_string scenario_reply = "ss"
      ∧ rtosc_argument_s scenario_reply 0 = "OSC_URL") ∧
    ((∀ e ∈ sent_since scenario_world (main_step scenario_reply scenario_world),
        e.2 = scenario_reply) ∧
    (sent_since scenario_world (main_step scenario_reply scenario_world)).length
      = scenario_world.logger.card
        + (if scenario_world.curr_url ∈ scenario_world.logger then 0 else 1) ∧
    ∀ a : String,
      ((sent_since scenario_world (main_step scenario_reply scenario_world)).filter
          (fun e => e.1 = lo_address_new_from_url a)).length
        = if a ∈ scenario_world.logger ∨ a = scenario_world.curr_url then 1 else 0) :=
  ⟨by decide, main_step_sends_once scenario_reply scenario_world (by decide)⟩
/-! ## Dispatch: statements and proofs -/

theorem process_msg_volume (N : Nat) (hN : N < 16) (v : F32) (d : RtData) (w : World) :
    (process_msg ⟨"/synth/oscil" ++ toString N ++ "/volume", [.f v]⟩ d w).2
      = setF w v (.oscil N) .volume := by
  interval_cases N <;> rfl

/-- C3: for an oscillator index `N` below 16 and a float `v`, the dispatch of
`/synth/oscilN/volume` with the one float argument `v` through the top-level
table, the leading `/` dropped as in `process`, sets `synth.oscil[N].volume`
to `v`, leaves the other members of that oscillator as they were, and leaves
every other oscillator as it was. -/
theorem dispatch_sets_oscil_volume (N : Nat) (hN : N < 16) (v : F32) (d : RtData)
    (w : World) :
    ((process_msg ⟨"/synth/oscil" ++ toString N ++ "/volume", [.f v]⟩ d w).2.synth.oscil
        ⟨N, hN⟩) = { w.synth.oscil ⟨N, hN⟩ with volume := v } ∧
    ∀ j : Fin 16, j.val ≠ N →
      (process_msg ⟨"/synth/oscil" ++ toString N ++ "/volume", [.f v]⟩ d w).2.synth.oscil j
        = w.synth.oscil j := by
  rw [process_msg_volume N hN]
  have hset : (setF w v (.oscil N) .volume).synth.oscil
      = Function.update w.synth.oscil ⟨N, hN⟩ { w.synth.oscil ⟨N, hN⟩ with volume := v } := by
    simp only [setF]
    rw [dif_pos hN]
  rw [hset]
  refine ⟨Function.update_same _ _ _, ?_⟩
  intro j hj
  have hne : j ≠ ⟨N, hN⟩ := fun e => hj (by rw [e])
  exact Function.update_noteq hne _ _

/-- C3, the instance of the specification: oscillator 0 and the float 0.2. -/
theorem dispatch_sets_oscil_volume_witness :
    0 < 16 ∧
    (((process_msg ⟨"/synth/oscil" ++ toString 0 ++ "/volume", [.f (.ofBits 0x3E4CCCCD)]⟩
          ⟨"", .null, 0⟩ World.init).2.synth.oscil ⟨0, by decide⟩)
        = { World.init.synth.oscil ⟨0, by decide⟩ with volume := .ofBits 0x3E4CCCCD } ∧
    ∀ j : Fin 16, j.val ≠ 0 →
      (process_msg ⟨"/synth/oscil" ++ toString 0 ++ "/volume", [.f (.ofBits 0x3E4CCCCD)]⟩
          ⟨"", .null, 0⟩ World.init).2.synth.oscil j
        = World.init.synth.oscil j) :=
  ⟨by decide,
    dispatch_sets_oscil_volume 0 (by decide) (.ofBits 0x3E4CCCCD) ⟨"", .null, 0⟩ World.init⟩

/-! ## Note stack: statements and proofs -/

theorem Notes.load_fst (n : Notes) (i : Nat) (h : i < n.cell.length) :
    (n.load i).1 = n.cell[i] := by
  simp [Notes.load, List.getD_eq_getElem?_getD, List.getElem?_eq_getElem h]

theorem Notes.load_cell (n : Notes) (i : Nat) : (n.load i).2.cell = n.cell := rfl

theorem list16 (l : List Int) (h : l.length = 16) :
    ∃ a0 a1 a2 a3 a4 a5 a6 a7 a8 a9 a10 a11 a12 a13 a14 a15 : Int,
      l = [a0, a1, a2, a3, a4, a5, a6, a7, a8, a9, a10, a11, a12, a13, a14, a15] := by
  match l, h with
  | [a0, a1, a2, a3, a4, a5, a6, a7, a8, a9, a10, a11, a12, a13, a14, a15], _ =>
    exact ⟨a0, a1, a2, a3, a4, a5, a6, a7, a8, a9, a10, a11, a12, a13, a14, a15, rfl⟩

theorem push_note_scan_cell (note : Int) (k : Nat) (n : Notes) :
    (push_note_scan note k n).2.cell = n.cell := by
  induction k generalizing n with
  | zero => rfl
  | succ k ih =>
    simp only [push_note_scan]
    split
    · rfl
    · rw [ih]; rfl

theorem push_note_scan_found (note : Int) (k : Nat) (n : Notes)
    (hlen : n.cell.length = 16) (hk : k ≤ 16) :
    (push_note_scan note k n).1 = true ↔ note ∈ n.cell.drop (16 - k) := by
  induction k generalizing n with
  | zero => simp [push_note_scan, ← hlen]
  | succ k ih =>
    have hlt : 16 - (k + 1) < n.cell.length := by omega
    have hd : n.cell.drop (16 - (k + 1)) = n.cell[16 - (k + 1)] :: n.cell.drop (16 - k) := by
      rw [List.drop_eq_getElem_cons hlt]
      congr 2
      omega
    rw [hd, push_note_scan, Notes.load_fst n _ hlt, List.mem_cons]
    by_cases hc : n.cell[16 - (k + 1)] = note
    · rw [if_pos hc]
      exact ⟨fun _ => Or.inl hc.symm, fun _ => rfl⟩
    · rw [if_neg hc, ih (n.load (16 - (k + 1))).2 (by rw [Notes.load_cell]; exact hlen) (by omega),
        Notes.load_cell]
      exact ⟨Or.inr, fun h => h.resolve_left (fun e => hc e.symm)⟩

set_option maxRecDepth 4000 in
theorem push_note_shift_cell (a0 a1 a2 a3 a4 a5 a6 a7 a8 a9 a10 a11 a12 a13 a14 a15 : Int)
    (u : List Nat) (note : Int) :
    ((push_note_shift 16
        ⟨[a0, a1, a2, a3, a4, a5, a6, a7, a8, a9, a10, a11, a12, a13, a14, a15], u⟩).store 0 note).cell
      = [note, a0, a1, a2, a3, a4, a5, a6, a7, a8, a9, a10, a11, a12, a13, a14] := by
  simp [push_note_shift, Notes.load, Notes.store]

theorem push_note_shift_take (n : Notes) (note : Int) (hlen : n.cell.length = 16) :
    ((push_note_shift 16 n).store 0 note).cell = note :: n.cell.take 15 := by
  obtain ⟨a0, a1, a2, a3, a4, a5, a6, a7, a8, a9, a10, a11, a12, a13, a14, a15, h⟩ :=
    list16 n.cell hlen
  obtain ⟨cell, u⟩ := n
  subst h
  rw [push_note_shift_cell]
  rfl

theorem pop_note_scan_cell (note : Int) (k : Nat) (pos : Option Nat) (n : Notes) :
    (pop_note_scan note k pos n).2.cell = n.cell := by
  induction k generalizing n pos with
  | zero => rfl
  | succ k ih => rw [pop_note_scan, ih]; rfl

theorem pop_note_scan_pos (note : Int) (k : Nat) (pos : Option Nat) (n : Notes) (p : Nat)
    (hk : k ≤ 16) (h : (pop_note_scan note k pos n).1 = some p) :
    pos = some p ∨ (p < 16 ∧ n.cell.getD p 0 = note) := by
  induction k generalizing n pos with
  | zero => exact Or.inl h
  | succ k ih =>
    rw [pop_note_scan] at h
    rcases ih _ _ (by omega) h with h1 | h1
    · by_cases hc : (n.load (16 - (k + 1))).1 = note
      · rw [if_pos hc] at h1
        have hp : 16 - (k + 1) = p := Option.some.inj h1
        right
        refine ⟨by omega, ?_⟩
        rw [← hp]
        exact hc
      · rw [if_neg hc] at h1
        exact Or.inl h1
    · exact Or.inr h1

theorem pop_note_scan_none (note : Int) (k : Nat) (pos : Option Nat) (n : Notes)
    (hlen : n.cell.length = 16) (hk : k ≤ 16)
    (h : (pop_note_scan note k pos n).1 = none) :
    pos = none ∧ note ∉ n.cell.drop (16 - k) := by
  induction k generalizing n pos with
  | zero => exact ⟨h, by simp [← hlen]⟩
  | succ k ih =>
    rw [pop_note_scan] at h
    have hlt : 16 - (k + 1) < n.cell.length := by omega
    have hd : n.cell.drop (16 - (k + 1)) = n.cell[16 - (k + 1)] :: n.cell.drop (16 - k) := by
      rw [List.drop_eq_getElem_cons hlt]
      congr 2
      omega
    obtain ⟨h1, h2⟩ := ih _ _ (by rw [Notes.load_cell]; exact hlen) (by omega) h
    rw [Notes.load_cell] at h2
    rw [Notes.load_fst n _ hlt] at h1
    by_cases hc : n.cell[16 - (k + 1)] = note
    · rw [if_pos hc] at h1
      exact absurd h1 (by simp)
    · rw [if_neg hc] at h1
      refine ⟨h1, ?_⟩
      rw [hd, List.mem_cons]
      rintro (e | e)
      · exact hc e.symm
      · exact h2 e

set_option maxRecDepth 4000 in
theorem pop_note_shift_cell (a0 a1 a2 a3 a4 a5 a6 a7 a8 a9 a10 a11 a12 a13 a14 a15 : Int)
    (u : List Nat) (p : Nat) (hp : p < 16) :
    ((pop_note_shift (15 - p)
        ⟨[a0, a1, a2, a3, a4, a5, a6, a7, a8, a9, a10, a11, a12, a13, a14, a15], u⟩).store 15 0).cell
      = [a0, a1, a2, a3, a4, a5, a6, a7, a8, a9, a10, a11, a12, a13, a14, a15].eraseIdx p ++ [0] := by
  interval_cases p <;> simp [pop_note_shift, Notes.load, Notes.store]

theorem pop_note_shift_erase (n : Notes) (p : Nat) (hp : p < 16) (hlen : n.cell.length = 16) :
    ((pop_note_shift (15 - p) n).store 15 0).cell = n.cell.eraseIdx p ++ [0] := by
  obtain ⟨a0, a1, a2, a3, a4, a5, a6, a7, a8, a9, a10, a11, a12, a13, a14, a15, h⟩ :=
    list16 n.cell hlen
  obtain ⟨cell, u⟩ := n
  subst h
  exact pop_note_shift_cell _ _ _ _ _ _ _ _ _ _ _ _ _ _ _ _ u p hp

/-- The cells after `push_note`: unchanged when the note is held, else the
note in front of the first fifteen cells. -/
theorem push_note_cell (w : World) (note : Int) (hlen : w.notes.cell.length = 16) :
    (push_note w note).notes.cell
      = if note ∈ w.notes.cell then w.notes.cell else note :: w.notes.cell.take 15 := by
  have hf := push_note_scan_found note 16 w.notes hlen (le_refl _)
  rw [Nat.sub_self, List.drop_zero] at hf
  unfold push_note
  by_cases hm : note ∈ w.notes.cell
  · rw [if_pos hm]
    simp only [hf.2 hm, if_true]
    exact push_note_scan_cell note 16 w.notes
  · rw [if_neg hm]
    have hfalse : (push_note_scan note 16 w.notes).1 = false := by
      cases hb : (push_note_scan note 16 w.notes).1
      · rfl
      · exact absurd (hf.1 hb) hm
    simp only [hfalse]
    have := push_note_shift_take (push_note_scan note 16 w.notes).2 note
      (by rw [push_note_scan_cell]; exact hlen)
    rw [push_note_scan_cell] at this
    simpa using this

/-- The cells after `pop_note`: unchanged when the note is not held, else one
cell holding the note is taken out and a zero is appended. -/
theorem pop_note_cell (w : World) (note : Int) (hlen : w.notes.cell.length = 16) :
    (note ∉ w.notes.cell ∧ (pop_note w note).notes.cell = w.notes.cell)
    ∨ ∃ p, p < 16 ∧ w.notes.cell.getD p 0 = note
        ∧ (pop_note w note).notes.cell = w.notes.cell.eraseIdx p ++ [0] := by
  have hcell : (pop_note w note).notes.cell
      = (match (pop_note_scan note 16 none w.notes).1 with
          | some note_pos =>
            (pop_note_shift (15 - note_pos) (pop_note_scan note 16 none w.notes).2).store 15 0
          | none => (pop_note_scan note 16 none w.notes).2).cell := by
    unfold pop_note
    simp only []
    split <;> rfl
  cases hs : (pop_note_scan note 16 none w.notes).1 with
  | none =>
    left
    have hn := (pop_note_scan_none note 16 none w.notes hlen (le_refl _) hs).2
    rw [Nat.sub_self, List.drop_zero] at hn
    refine ⟨hn, ?_⟩
    rw [hcell, hs]
    exact pop_note_scan_cell note 16 none w.notes
  | some p =>
    right
    rcases pop_note_scan_pos note 16 none w.notes p (le_refl _) hs with h1 | ⟨hp, hv⟩
    · exact absurd h1 (by simp)
    · refine ⟨p, hp, hv, ?_⟩
      rw [hcell, hs]
      have := pop_note_shift_erase (pop_note_scan note 16 none w.notes).2 p hp
        (by rw [pop_note_scan_cell]; exact hlen)
      rw [pop_note_scan_cell] at this
      exact this

theorem NotesInv.push (w : World) (note : Int) (h : NotesInv w.notes.cell) :
    NotesInv (push_note w note).notes.cell := by
  obtain ⟨hlen, hp⟩ := h
  rw [push_note_cell w note hlen]
  by_cases hm : note ∈ w.notes.cell
  · rw [if_pos hm]; exact ⟨hlen, hp⟩
  · rw [if_neg hm]
    refine ⟨by simp [hlen], ?_⟩
    rw [List.pairwise_cons]
    refine ⟨fun b hb _ e => hm (e ▸ List.mem_of_mem_take hb), ?_⟩
    exact hp.sublist (List.take_sublist _ _)

theorem NotesInv.pop (w : World) (note : Int) (h : NotesInv w.notes.cell) :
    NotesInv (pop_note w note).notes.cell := by
  obtain ⟨hlen, hp⟩ := h
  rcases pop_note_cell w note hlen with ⟨_, he⟩ | ⟨p, hlt, _, he⟩
  · rw [he]; exact ⟨hlen, hp⟩
  · rw [he]
    refine ⟨?_, ?_⟩
    · rw [List.length_append, List.length_eraseIdx, if_pos (by omega), hlen]
      rfl
    · rw [List.pairwise_append]
      refine ⟨hp.sublist (List.eraseIdx_sublist _ _), List.pairwise_singleton _ _, ?_⟩
      intro a _ b hb ha e
      rw [List.mem_singleton] at hb
      exact ha (e.trans hb)

theorem NotesInv.run_ops (ops : List NoteOp) (w : World) (h : NotesInv w.notes.cell) :
    NotesInv (run_ops w ops).notes.cell := by
  induction ops generalizing w with
  | nil => exact h
  | cons op ops ih =>
    cases op with
    | push note => exact ih _ (NotesInv.push w note h)
    | pop note => exact ih _ (NotesInv.pop w note h)

theorem NotesInv.distinct {cell : List Int} (h : NotesInv cell) (i j : Nat)
    (hi : i < 16) (hj : j < 16) (hnz : cell.getD i 0 ≠ 0)
    (heq : cell.getD i 0 = cell.getD j 0) : i = j := by
  obtain ⟨hlen, hp⟩ := h
  have hi' : i < cell.length := by omega
  have hj' : j < cell.length := by omega
  rw [List.getD_eq_getElem?_getD, List.getD_eq_getElem?_getD, List.getElem?_eq_getElem hi',
    List.getElem?_eq_getElem hj'] at heq
  rw [List.getD_eq_getElem?_getD, List.getElem?_eq_getElem hi'] at hnz
  simp only [Option.getD_some] at heq hnz
  rw [List.pairwise_iff_getElem] at hp
  rcases Nat.lt_trichotomy i j with hlt | he | hgt
  · exact absurd heq (hp i j hi' hj' hlt hnz)
  · exact he
  · exact absurd heq.symm (hp j i hj' hi' hgt (heq ▸ hnz))

theorem push_note_shift_used (k : Nat) (n : Notes) (i : Nat) (h : i ∈ n.used) :
    i ∈ (push_note_shift k n).used := by
  induction k generalizing n with
  | zero => exact h
  | succ k ih =>
    rw [push_note_shift]
    apply ih
    simp only [Notes.store, Notes.load, List.mem_append]
    exact Or.inl (Or.inl h)

/-- Whenever the note is not on a stack of sixteen cells, `push_note` uses the
index 16. -/
theorem push_note_used_16 (w : World) (note : Int) (hlen : w.notes.cell.length = 16)
    (hm : note ∉ w.notes.cell) : 16 ∈ (push_note w note).notes.used := by
  have hf := push_note_scan_found note 16 w.notes hlen (le_refl _)
  rw [Nat.sub_self, List.drop_zero] at hf
  have hfalse : (push_note_scan note 16 w.notes).1 = false := by
    cases hb : (push_note_scan note 16 w.notes).1
    · rfl
    · exact absurd (hf.1 hb) hm
  unfold push_note
  simp only [hfalse]
  show 16 ∈ ((push_note_shift 16 (push_note_scan note 16 w.notes).2).store 0 note).used
  simp only [Notes.store, List.mem_append]
  left
  rw [push_note_shift]
  apply push_note_shift_used
  simp [Notes.store, Notes.load]

theorem pop_note_scan_used (note : Int) (k : Nat) (pos : Option Nat) (n : Notes) (i : Nat)
    (h : i ∈ (pop_note_scan note k pos n).2.used) : i ∈ n.used ∨ i < 16 := by
  induction k generalizing n pos with
  | zero => exact Or.inl h
  | succ k ih =>
    rw [pop_note_scan] at h
    rcases ih _ _ h with h1 | h1
    · simp only [Notes.load, List.mem_append, List.mem_singleton] at h1
      rcases h1 with h1 | h1
      · exact Or.inl h1
      · right; omega
    · exact Or.inr h1

theorem pop_note_shift_used (k : Nat) (n : Notes) (i : Nat)
    (h : i ∈ (pop_note_shift k n).used) : i ∈ n.used ∨ i < 16 := by
  induction k generalizing n with
  | zero => exact Or.inl h
  | succ k ih =>
    rw [pop_note_shift] at h
    rcases ih _ h with h1 | h1
    · simp only [Notes.store, Notes.load, List.mem_append, List.mem_singleton] at h1
      rcases h1 with (h1 | h1) | h1
      · exact Or.inl h1
      · right; omega
      · right; omega
    · exact Or.inr h1

/-- Every index `pop_note` uses in a `notes[...]` expression is below 16. -/
theorem pop_note_used_lt (w : World) (note : Int) (i : Nat)
    (h : i ∈ (pop_note w note).notes.used) : i ∈ w.notes.used ∨ i < 16 := by
  have hused : (pop_note w note).notes.used
      = ((match (pop_note_scan note 16 none w.notes).1 with
          | some note_pos =>
            (pop_note_shift (15 - note_pos) (pop_note_scan note 16 none w.notes).2).store 15 0
          | none => (pop_note_scan note 16 none w.notes).2).load 0).2.used := by
    unfold pop_note
    simp only []
    split <;> rfl
  rw [hused] at h
  simp only [Notes.load, List.mem_append, List.mem_singleton] at h
  rcases h with h | h
  · cases hs : (pop_note_scan note 16 none w.notes).1 with
    | none =>
      rw [hs] at h
      exact pop_note_scan_used note 16 none w.notes i h
    | some p =>
      rw [hs] at h
      simp only [Notes.store, List.mem_append, List.mem_singleton] at h
      rcases h with h | h
      · rcases pop_note_shift_used _ _ i h with h1 | h1
        · exact pop_note_scan_used note 16 none w.notes i h1
        · exact Or.inr h1
      · right; omega
  · right; omega

/-- C9: after any finite sequence of `push_note` and `pop_note` calls applied
to the all-zero stack, `notes` still has its sixteen cells and no non-zero note
value stands at two different positions of `notes[0..15]`; on such a stack
`push_note` of a note already held leaves the cells as they are, and
`pop_note` of a held note takes one cell holding it out, the later cells
moving down by one and a zero filling the end. -/
theorem note_stack_never_holds_duplicate (w : World) (ops : List NoteOp)
    (h : w.notes.cell = List.replicate 16 0) :
    (run_ops w ops).notes.cell.length = 16 ∧
    (∀ i j, i < 16 → j < 16 → (run_ops w ops).notes.cell.getD i 0 ≠ 0 →
      (run_ops w ops).notes.cell.getD i 0 = (run_ops w ops).notes.cell.getD j 0 → i = j) ∧
    (∀ note, note ∈ (run_ops w ops).notes.cell →
      (push_note (run_ops w ops) note).notes.cell = (run_ops w ops).notes.cell) ∧
    (∀ note, note ∈ (run_ops w ops).notes.cell →
      ∃ p, p < 16 ∧ (run_ops w ops).notes.cell.getD p 0 = note ∧
        (pop_note (run_ops w ops) note).notes.cell
          = (run_ops w ops).notes.cell.eraseIdx p ++ [0]) := by
  have h0 : NotesInv w.notes.cell := by
    rw [h]
    exact ⟨rfl, by decide⟩
  have hinv := NotesInv.run_ops ops w h0
  refine ⟨hinv.1, fun i j hi hj hnz heq => hinv.distinct i j hi hj hnz heq, ?_, ?_⟩
  · intro note hm
    rw [push_note_cell _ note hinv.1, if_pos hm]
  · intro note hm
    rcases pop_note_cell (run_ops w ops) note hinv.1 with ⟨hn, _⟩ | hp
    · exact absurd hm hn
    · exact hp

/-- C9, an instance: pushing 60, 62 and 60 again, then releasing 60, from the
state at program start. -/
theorem note_stack_never_holds_duplicate_witness :
    World.init.notes.cell = List.replicate 16 0 ∧
    ((run_ops World.init [.push 60, .push 62, .push 60, .pop 60]).notes.cell.length = 16 ∧
    (∀ i j, i < 16 → j < 16 →
      (run_ops World.init [.push 60, .push 62, .push 60, .pop 60]).notes.cell.getD i 0 ≠ 0 →
      (run_ops World.init [.push 60, .push 62, .push 60, .pop 60]).notes.cell.getD i 0
        = (run_ops World.init [.push 60, .push 62, .push 60, .pop 60]).notes.cell.getD j 0 →
      i = j) ∧
    (∀ note, note ∈ (run_ops World.init [.push 60, .push 62, .push 60, .pop 60]).notes.cell →
      (push_note (run_ops World.init [.push 60, .push 62, .push 60, .pop 60]) note).notes.cell
        = (run_ops World.init [.push 60, .push 62, .push 60, .pop 60]).notes.cell) ∧
    (∀ note, note ∈ (run_ops World.init [.push 60, .push 62, .push 60, .pop 60]).notes.cell →
      ∃ p, p < 16 ∧
        (run_ops World.init [.push 60, .push 62, .push 60, .pop 60]).notes.cell.getD p 0 = note ∧
        (pop_note (run_ops World.init [.push 60, .push 62, .push 60, .pop 60]) note).notes.cell
          = (run_ops World.init [.push 60, .push 62, .push 60, .pop 60]).notes.cell.eraseIdx p
            ++ [0])) :=
  ⟨rfl, note_stack_never_holds_duplicate World.init [.push 60, .push 62, .push 60, .pop 60] rfl⟩

/-- C10: on the all-zero stack `push_note(60)` uses the index 16 in a
`notes[...]` expression, one past the last cell of `notes[16]`. -/
theorem push_note_uses_index_16 :
    16 ∈ (push_note World.init 60).notes.used ∧
    ¬ ∀ i ∈ (push_note World.init 60).notes.used, i < 16 := by
  refine ⟨by decide, ?_⟩
  intro h
  exact absurd (h 16 (by decide)) (by decide)

/-! ## Lookup and search: statements and proofs -/

theorem strstr_zero (h n : List Char) : strstr h n = some 0 ↔ n <+: h := by
  cases h with
  | nil =>
    unfold strstr
    cases n with
    | nil => simp
    | cons c cs => simp
  | cons c cs =>
    unfold strstr
    by_cases hp : n.isPrefixOf (c :: cs) = true
    · rw [if_pos hp]
      exact ⟨fun _ => List.isPrefixOf_iff_prefix.mp hp, fun _ => rfl⟩
    · rw [if_neg hp]
      constructor
      · intro h
        cases hs : strstr cs n with
        | none => rw [hs] at h; exact absurd h (by simp)
        | some k => rw [hs] at h; simp at h
      · intro h
        exact absurd (List.isPrefixOf_iff_prefix.mpr h) hp

theorem path_search_loop_eq (needle : String) (ps : List Port) (acc : List Arg) :
    path_search_loop needle ps acc
      = acc ++ (ps.filter (fun p => decide (needle.toList <+: p.name.toList))).flatMap port_row := by
  induction ps generalizing acc with
  | nil => simp [path_search_loop]
  | cons p ps ih =>
    unfold path_search_loop
    by_cases hp : needle.toList <+: p.name.toList
    · have h0 : ¬ (strstr p.name.toList needle.toList ≠ some 0) :=
        fun k => k ((strstr_zero _ _).mpr hp)
      rw [if_neg h0, ih, List.filter_cons_of_pos (by simpa using hp), List.flatMap_cons,
        List.append_assoc]
      rfl
    · have h0 : strstr p.name.toList needle.toList ≠ some 0 :=
        fun k => hp ((strstr_zero _ _).mp k)
      rw [if_pos h0, ih, List.filter_cons_of_neg (by simpa using hp)]

theorem arg_pairs_rows (l : List Port) :
    arg_pairs (l.flatMap port_row) = l.map (fun p => (Arg.s p.name, Arg.b p.metadata)) := by
  induction l with
  | nil => rfl
  | cons p l ih =>
    rw [List.flatMap_cons, List.map_cons, ← ih]
    rfl

theorem tags_rows (l : List Port) :
    (l.flatMap port_row).map Arg.tag = (List.replicate l.length ['s', 'b']).flatten := by
  induction l with
  | nil => rfl
  | cons p l ih =>
    rw [List.flatMap_cons, List.map_append, ih, List.length_cons, List.replicate_succ,
      List.flatten_cons]
    rfl

/-- The ports `path_search` reports: those of the collection it walks whose
name begins with the needle, in the order of the table. -/
theorem path_search_reply_args (m : Msg) :
    (path_search_reply m).path = "/paths" ∧
    (path_search_reply m).args
      = (((path_search_ports m).getD []).filter
          (fun p => decide ((rtosc_argument_s m 1).toList <+: p.name.toList))).flatMap port_row := by
  unfold path_search_reply
  cases path_search_ports m with
  | none => exact ⟨rfl, rfl⟩
  | some ps =>
    refine ⟨rfl, ?_⟩
    dsimp only
    rw [path_search_loop_eq]
    rfl


/-- C4 as stated fails: with the root `""` and the fragment `"freq"` the
reply has no arguments, although the tree has a port whose name contains
`freq`, at the full path `/synth/freq`. -/
theorem path_search_reply_freq_empty :
    path_search_reply ⟨"/path-search", [.s "", .s "freq"]⟩ = ⟨"/paths", []⟩
    ∧ Ports.apropos_path "freq" "/" ports = some "/synth/freq"
    ∧ Arg.s "/synth/freq" ∉ (path_search_reply ⟨"/path-search", [.s "", .s "freq"]⟩).args := by
  decide

/-- C4, as the code has it: for every port of the collection walked (the
top-level table for an empty root, else the nested collection of the port
found for the root) whose name begins with the fragment, the reply holds the
pair of its name and its metadata; for the root `""` and the fragment `"freq"`
the collection is the top-level table and the reply has no arguments. -/
theorem path_search_reply_has_prefixed (root frag : String) (ps : List Port) (p : Port)
    (hps : path_search_ports ⟨"/path-search", [.s root, .s frag]⟩ = some ps)
    (hp : p ∈ ps) (hpre : frag.toList <+: p.name.toList) :
    (Arg.s p.name, Arg.b p.metadata)
      ∈ arg_pairs (path_search_reply ⟨"/path-search", [.s root, .s frag]⟩).args
    ∧ path_search_ports ⟨"/path-search", [.s "", .s "freq"]⟩ = some ports
    ∧ (path_search_reply ⟨"/path-search", [.s "", .s "freq"]⟩).args = [] := by
  refine ⟨?_, rfl, by decide⟩
  rw [(path_search_reply_args _).2, arg_pairs_rows, hps, List.mem_map]
  refine ⟨p, ?_, rfl⟩
  rw [Option.getD_some, List.mem_filter]
  exact ⟨hp, by simpa [rtosc_argument_s] using hpre⟩

/-- C4, an instance: the root `""` and the fragment `"syn"` report the port
`synth/`. -/
theorem path_search_reply_has_prefixed_witness :
    path_search_ports ⟨"/path-search", [.s "", .s "syn"]⟩ = some ports
    ∧ Port.mk "synth/" (rDoc "Main ports for synthesis") (some synth_ports) .synth ∈ ports
    ∧ "syn".toList <+:
        (Port.mk "synth/" (rDoc "Main ports for synthesis") (some synth_ports) .synth).name.toList
    ∧ ((Arg.s (Port.mk "synth/" (rDoc "Main ports for synthesis") (some synth_ports) .synth).name,
        Arg.b (Port.mk "synth/" (rDoc "Main ports for synthesis") (some synth_ports)
          .synth).metadata)
        ∈ arg_pairs (path_search_reply ⟨"/path-search", [.s "", .s "syn"]⟩).args
      ∧ path_search_ports ⟨"/path-search", [.s "", .s "freq"]⟩ = some ports
      ∧ (path_search_reply ⟨"/path-search", [.s "", .s "freq"]⟩).args = []) :=
  ⟨rfl, by simp [ports], by decide,
    path_search_reply_has_prefixed "" "syn" ports
      (Port.mk "synth/" (rDoc "Main ports for synthesis") (some synth_ports) .synth)
      rfl (by simp [ports]) (by decide)⟩

/-- C5: the arguments of the `/paths` reply are string and blob in turn, with
the type tags `sb` once per pair; every pair is the name and the metadata of a
port of the collection walked whose name contains the fragment; and no port of
that collection whose name does not contain the fragment has its name in the
reply. -/
theorem path_search_reply_pairs (root frag : String) :
    (path_search_reply ⟨"/path-search", [.s root, .s frag]⟩).path = "/paths" ∧
    (∃ n, rtosc_argument_string (path_search_reply ⟨"/path-search", [.s root, .s frag]⟩)
        = String.mk (List.replicate n ['s', 'b']).flatten
      ∧ (arg_pairs (path_search_reply ⟨"/path-search", [.s root, .s frag]⟩).args).length = n) ∧
    (∀ pr ∈ arg_pairs (path_search_reply ⟨"/path-search", [.s root, .s frag]⟩).args,
      ∃ ps p, path_search_ports ⟨"/path-search", [.s root, .s frag]⟩ = some ps ∧ p ∈ ps
        ∧ pr = (Arg.s p.name, Arg.b p.metadata) ∧ frag.toList <:+: p.name.toList) ∧
    (∀ ps p, path_search_ports ⟨"/path-search", [.s root, .s frag]⟩ = some ps → p ∈ ps →
      ¬ frag.toList <:+: p.name.toList →
      Arg.s p.name ∉ (path_search_reply ⟨"/path-search", [.s root, .s frag]⟩).args) := by
  obtain ⟨hpath, hargs⟩ := path_search_reply_args ⟨"/path-search", [.s root, .s frag]⟩
  have hneedle : rtosc_argument_s ⟨"/path-search", [.s root, .s frag]⟩ 1 = frag := rfl
  rw [hneedle] at hargs
  refine ⟨hpath, ?_, ?_, ?_⟩
  · refine ⟨_, ?_, rfl⟩
    unfold rtosc_argument_string
    rw [hargs, tags_rows, arg_pairs_rows, List.length_map]
  · intro pr hpr
    rw [hargs, arg_pairs_rows, List.mem_map] at hpr
    obtain ⟨p, hp, rfl⟩ := hpr
    rw [List.mem_filter] at hp
    cases hps : path_search_ports ⟨"/path-search", [.s root, .s frag]⟩ with
    | none => rw [hps] at hp; exact absurd hp.1 (List.not_mem_nil _)
    | some ps =>
      rw [hps] at hp
      exact ⟨ps, p, rfl, hp.1, rfl, (of_decide_eq_true hp.2).isInfix⟩
  · intro ps p _ _ hnot hmem
    rw [hargs, List.mem_flatMap] at hmem
    obtain ⟨q, hq, hin⟩ := hmem
    rw [List.mem_filter] at hq
    have hname : p.name = q.name := by
      unfold port_row at hin
      simp only [List.mem_cons, Arg.s.injEq, List.mem_singleton, reduceCtorEq, or_false,
        List.not_mem_nil] at hin
      exact hin
    rw [hname] at hnot
    exact hnot (of_decide_eq_true hq.2).isInfix


/-- C8 as stated fails: for the query `freq` the lookup finds the port at the
full path `/synth/freq`, and the reply carries its name `freq::f`; for the
query `help` it finds the port at `/help`, and the reply carries `help:`. -/
theorem apropos_replies_name_not_path :
    (apropos ⟨"/apropos", [.s "freq"]⟩ World.init).bToU.ring
      = [⟨"/display", [.s "freq::f"]⟩]
    ∧ Ports.apropos_path "freq" "/" ports = some "/synth/freq"
    ∧ (apropos ⟨"/apropos", [.s "help"]⟩ World.init).bToU.ring
      = [⟨"/display", [.s "help:"]⟩]
    ∧ Ports.apropos_path "help" "/" ports = some "/help" := by
  decide

/-- C8, as the code has it: for every query string the handler makes one
request on `bToU`, the write of a `/display` message with one string, which is
appended when the channel has room for it; the string is the name of the port
the lookup finds for the query without one leading `/`, or `unknown path...`
when it finds none. -/
theorem apropos_displays_name (path s : String) (w : World) :
    ∃ str,
      (match Ports.apropos (skip_slash s) ports with
        | some p => str = p.name
        | none => str = "unknown path...") ∧
      (apropos ⟨path, [.s s]⟩ w).bToU.calls
        = w.bToU.calls ++ [Call.write ⟨"/display", [.s str]⟩] ∧
      (apropos ⟨path, [.s s]⟩ w).bToU.ring
        = (if w.bToU.used + rtosc_message_length ⟨"/display", [.s str]⟩ ≤ w.bToU.capacity
            then w.bToU.ring ++ [⟨"/display", [.s str]⟩] else w.bToU.ring) := by
  have hs : rtosc_argument_s ⟨path, [.s s]⟩ 0 = s := rfl
  unfold apropos
  rw [hs]
  dsimp only
  cases Ports.apropos (skip_slash s) ports with
  | none => exact ⟨"unknown path...", rfl, rfl, rfl⟩
  | some p => exact ⟨p.name, rfl, rfl, rfl⟩

end OscPrompt
